import Mathlib

/-!
Shallow embedding of `pkg/auth/mtls_authhandler.go` (Cilium mutual-TLS auth
handler) and proofs about its specification claims.

External collaborators (the certificate provider, Go's `x509` path
validation, the network, the TLS layer) are modelled as oracle functions
packaged in environment structures; the code under verification is the
control flow of `mtls_authhandler.go` itself.  Calls to the outside world
are additionally recorded in explicit event/effect traces so that claims of
the form "no work is performed" or "X is never invoked on Y" can be stated.

Time (`time.Time`) is modelled as `Int`; `t.Before(u)` is `t < u`.
-/

namespace MtlsAuth

/-- Model of an `x509.Certificate` as used by the handler: only the `IsCA`
flag and the `NotAfter` expiration are inspected by the code; `serial`
stands in for the rest of the certificate's content (DER bytes, SANs, ...)
so that distinct certificates are distinguishable. -/
structure Certificate where
  isCA : Bool
  notAfter : Int
  serial : Nat
deriving DecidableEq, Repr

/-- Model of an `x509.CertPool`: the list of certificates it holds, in
insertion order. -/
abbrev CertPool := List Certificate

/-- Error results of `verifyPeerCertificate` (`mtls_authhandler.go:232-275`).
`identityValidationError` carries the message of the error returned by the
provider's `ValidateIdentity`, which the code wraps and propagates
(`fmt.Errorf("failed to validate SAN: %w", err)`). -/
inductive VerifyError where
  | emptyChainList
  | missingLeafCertificate
  | chainVerificationFailed
  | identityValidationError (msg : String)
  | identityMismatch
deriving DecidableEq, Repr

/-- External calls made by `verifyPeerCertificate`, recorded in order:
`opts.Intermediates.AddCert(cert)` (line 248), `leaf.Verify(opts)` with
`opts = {Roots := roots, Intermediates := intermediates}` (line 256), and
`m.cert.ValidateIdentity(*id, leaf)` (line 262). -/
inductive VEvent where
  | addIntermediate (c : Certificate)
  | pathValidate (leaf : Certificate) (roots : CertPool) (intermediates : CertPool)
  | checkIdentity (id : Nat) (leaf : Certificate)
deriving DecidableEq, Repr

/-- Oracles for the two external predicates `verifyPeerCertificate` calls:
`leafVerify leaf roots intermediates` models whether `leaf.Verify(opts)`
succeeds (X.509 path validation, external to this file), and
`validateIdentity id leaf` models the certificate provider's
`ValidateIdentity(id, leaf) (bool, error)`, with `.error msg` standing for a
non-nil Go error. -/
structure CertEnv where
  leafVerify : Certificate → CertPool → CertPool → Bool
  validateIdentity : Nat → Certificate → Except String Bool

/-- The inner partition loop of `verifyPeerCertificate`
(`mtls_authhandler.go:246-252`): every certificate with `IsCA` set is added
to the `Intermediates` pool, in chain order. -/
def chainIntermediates (chain : List Certificate) : CertPool :=
  chain.filter (fun c => c.isCA)

/-- The `leaf` variable after the partition loop
(`mtls_authhandler.go:245-252`): starts `nil`, is overwritten by each
non-CA certificate in turn, so it ends as the last non-CA certificate of
the chain (or `none` if there is none). -/
def chainLeaf (chain : List Certificate) : Option Certificate :=
  chain.foldl (fun acc c => if c.isCA then acc else some c) none

/-- One iteration of the `for _, chain := range certChains` loop of
`verifyPeerCertificate` (`mtls_authhandler.go:239-272`), returning the
trace of external calls and either the error that aborts the whole
function or the leaf's `NotAfter` assigned to `expirationTime` (line 269). -/
def processChain (env : CertEnv) (id : Option Nat) (caBundle : CertPool)
    (chain : List Certificate) : List VEvent × Except VerifyError Int :=
  match chainLeaf chain with
  | none =>
    ((chainIntermediates chain).map VEvent.addIntermediate,
      .error .missingLeafCertificate)
  | some leaf =>
    if env.leafVerify leaf caBundle (chainIntermediates chain) then
      match id with
      | none =>
        ((chainIntermediates chain).map VEvent.addIntermediate ++
          [VEvent.pathValidate leaf caBundle (chainIntermediates chain)],
          .ok leaf.notAfter)
      | some i =>
        match env.validateIdentity i leaf with
        | .error msg =>
          ((chainIntermediates chain).map VEvent.addIntermediate ++
            [VEvent.pathValidate leaf caBundle (chainIntermediates chain),
              VEvent.checkIdentity i leaf],
            .error (.identityValidationError msg))
        | .ok false =>
          ((chainIntermediates chain).map VEvent.addIntermediate ++
            [VEvent.pathValidate leaf caBundle (chainIntermediates chain),
              VEvent.checkIdentity i leaf],
            .error .identityMismatch)
        | .ok true =>
          ((chainIntermediates chain).map VEvent.addIntermediate ++
            [VEvent.pathValidate leaf caBundle (chainIntermediates chain),
              VEvent.checkIdentity i leaf],
            .ok leaf.notAfter)
    else
      ((chainIntermediates chain).map VEvent.addIntermediate ++
        [VEvent.pathValidate leaf caBundle (chainIntermediates chain)],
        .error .chainVerificationFailed)

/-- The chain loop of `verifyPeerCertificate` (`mtls_authhandler.go:239-274`):
`exp` is the current value of the `expirationTime` variable (a nil-able
pointer, hence `Option Int`).  An error in any chain returns immediately
(`return nil, err`); a verified chain overwrites `expirationTime` with its
leaf's `NotAfter` and the loop continues. -/
def verifyChainsLoop (env : CertEnv) (id : Option Nat) (caBundle : CertPool) :
    List (List Certificate) → Option Int → List VEvent × Except VerifyError (Option Int)
  | [], exp => ([], .ok exp)
  | chain :: rest, _exp =>
    match processChain env id caBundle chain with
    | (evs, .error e) => (evs, .error e)
    | (evs, .ok t) =>
      let r := verifyChainsLoop env id caBundle rest (some t)
      (evs ++ r.1, r.2)

/-- Model of `verifyPeerCertificate` (`mtls_authhandler.go:232-275`): rejects an
empty chain list (lines 233-235), then runs the chain loop with
`expirationTime` starting `nil` (line 237) and returns its final value. -/
def verifyPeerCertificate (env : CertEnv) (id : Option Nat) (caBundle : CertPool)
    (certChains : List (List Certificate)) :
    List VEvent × Except VerifyError (Option Int) :=
  match certChains with
  | [] => ([], .error .emptyChainList)
  | _ :: _ => verifyChainsLoop env id caBundle certChains none

/-- Model of `authRequest` as consumed by `authenticate`: local identity,
remote identity and remote node IP.  `NumericIdentity` is an opaque numeric
workload identity, modelled as `Nat`. -/
structure authRequest where
  localIdentity : Nat
  remoteIdentity : Nat
  remoteNodeIP : String
deriving DecidableEq, Repr

/-- Model of `authResponse` (`mtls_authhandler.go:139-141`). -/
structure authResponse where
  expirationTime : Int
deriving DecidableEq, Repr

/-- Error results of `authenticate` (`mtls_authhandler.go:75-142`), one per
`return nil, ...` site, in source order. -/
inductive AuthError where
  | invalidRequest
  | certificateUnavailable
  | trustBundleUnavailable
  | connectionFailed
  | handshakeFailed
  | noExpirationDetermined
deriving DecidableEq, Repr

/-- Certificate-provider calls and network I/O performed by `authenticate`,
recorded in order: `m.cert.GetCertificateForIdentity` (line 79),
`m.cert.GetTrustBundle` (line 84), `net.Dial` (line 90) and the TLS
handshake over the dialled connection (line 131). -/
inductive Effect where
  | getCertificate (id : Nat)
  | getTrustBundle
  | dial (ip : String) (port : Nat)
  | tlsHandshake
deriving DecidableEq, Repr

/-- Oracles for the outside world as seen by `authenticate`:
`getCertificateForIdentity` returns the local `tls.Certificate`, of which
the code only reads `Leaf.NotAfter`, so it is modelled by the leaf
`Certificate`; `getTrustBundle` returns the CA pool; `dialOk ip` models
whether `net.Dial("tcp", ip:port)` succeeds; `peerChain` models the TLS
handshake up to peer verification: `.error msg` means the handshake fails
before or independently of the `VerifyPeerCertificate` callback (including
a DER parse failure of a raw peer certificate, lines 113-116), while
`.ok chain` means the callback runs with `chain` as the parsed peer
certificates (lines 111-118). -/
structure AuthEnv where
  certEnv : CertEnv
  getCertificateForIdentity : Nat → Except String Certificate
  getTrustBundle : Except String CertPool
  dialOk : String → Bool
  peerChain : Except String (List Certificate)

/-- The guarded update inside the `VerifyPeerCertificate` callback
(`mtls_authhandler.go:121-123`): `expirationTime` is replaced by
`peerExpirationTime` exactly when the latter is non-nil and strictly
earlier (`peerExpirationTime.Before(*expirationTime)`).  The `some p, none`
case corresponds to a nil `expirationTime` being dereferenced by the guard;
at the only call site `expirationTime` is non-nil (line 96), so that case
is unreachable. -/
def updateExpiration (peerExpirationTime expirationTime : Option Int) : Option Int :=
  match peerExpirationTime, expirationTime with
  | some p, some e => if p < e then some p else some e
  | some p, none => some p
  | none, e => e

/-- Model of `authenticate` (`mtls_authhandler.go:75-142`), with its effect trace.
The nil request check is line 76 (`ar` is a nil-able pointer, hence
`Option authRequest`); `expirationTime` is seeded with the address of
`clientCert.Leaf.NotAfter` (line 96), so it is a non-`none` `Option Int`
from the start; inside the `VerifyPeerCertificate` callback the peer's
expiration replaces it only when strictly earlier
(`peerExpirationTime.Before(*expirationTime)`, lines 121-123); a callback
error fails the handshake (line 131); the `expirationTime == nil` check is
lines 135-137. -/
def authenticate (cfg : Nat) (env : AuthEnv) (ar : Option authRequest) :
    List Effect × Except AuthError authResponse :=
  match ar with
  | none => ([], .error .invalidRequest)
  | some ar =>
    match env.getCertificateForIdentity ar.localIdentity with
    | .error _ => ([.getCertificate ar.localIdentity], .error .certificateUnavailable)
    | .ok clientCert =>
      match env.getTrustBundle with
      | .error _ =>
        ([.getCertificate ar.localIdentity, .getTrustBundle], .error .trustBundleUnavailable)
      | .ok caBundle =>
        if env.dialOk ar.remoteNodeIP then
          let effs := [Effect.getCertificate ar.localIdentity, Effect.getTrustBundle,
            Effect.dial ar.remoteNodeIP cfg, Effect.tlsHandshake]
          match env.peerChain with
          | .error _ => (effs, .error .handshakeFailed)
          | .ok chain =>
            let expirationTime : Option Int := some clientCert.notAfter
            match (verifyPeerCertificate env.certEnv (some ar.remoteIdentity) caBundle
                [chain]).2 with
            | .error _ => (effs, .error .handshakeFailed)
            | .ok peerExpirationTime =>
              match updateExpiration peerExpirationTime expirationTime with
              | none => (effs, .error .noExpirationDetermined)
              | some t => (effs, .ok ⟨t⟩)
        else
          ([.getCertificate ar.localIdentity, .getTrustBundle,
            .dial ar.remoteNodeIP cfg], .error .connectionFailed)

/-- Result of `newMTLSAuthHandler` (`mtls_authhandler.go:33-53`), flattened
into observable outcomes: whether the returned `authHandlerResult` carries
an `AuthHandler`, whether a lifecycle start/stop hook was appended
(`lc.Append`, line 48), whether `log.Fatal` was reached (line 39), and
whether the `params.CertificateProvider == nil` test was evaluated at all
(line 38). -/
structure NewHandlerResult where
  handlerInstalled : Bool
  hookAppended : Bool
  fatalExit : Bool
  providerChecked : Bool
deriving DecidableEq, Repr

/-- Model of `newMTLSAuthHandler` (`mtls_authhandler.go:33-53`): port 0 returns the
empty `authHandlerResult` immediately (lines 34-37); otherwise a nil
certificate provider is fatal (lines 38-40, `log.Fatal` terminates the
process, so nothing else happens on that path); otherwise the handler is
built and the lifecycle hook appended (lines 42-52). -/
def newMTLSAuthHandler (port : Nat) (providerPresent : Bool) : NewHandlerResult :=
  if port = 0 then
    { handlerInstalled := false, hookAppended := false, fatalExit := false,
      providerChecked := false }
  else if providerPresent then
    { handlerInstalled := true, hookAppended := true, fatalExit := false,
      providerChecked := true }
  else
    { handlerInstalled := false, hookAppended := false, fatalExit := true,
      providerChecked := true }

/-- Outcome of one `l.Accept()` call in the accept loop of
`listenForConnections` (`mtls_authhandler.go:167-179`): either a new
connection, or an error, of which the only relevant property is whether
`errors.Is(err, net.ErrClosed)` holds. -/
inductive AcceptResult where
  | acceptedConn
  | acceptError (isErrClosed : Bool)
deriving DecidableEq, Repr

/-- What one iteration of the accept loop does with an accept outcome. -/
inductive LoopAction where
  | spawnHandlerAndContinue
  | logAndContinue
  | exitLoop
deriving DecidableEq, Repr

/-- The body of the `for` loop of `listenForConnections`
(`mtls_authhandler.go:167-179`): a connection spawns
`go m.handleConnection` and loops; an error is logged, and the loop
`return`s exactly when `errors.Is(err, net.ErrClosed)`, otherwise it
`continue`s. -/
def acceptLoopStep : AcceptResult → LoopAction
  | .acceptedConn => .spawnHandlerAndContinue
  | .acceptError isErrClosed => if isErrClosed then .exitLoop else .logAndContinue

/-- The accept loop of `listenForConnections` run over a finite sequence of
`Accept` outcomes: `true` iff the loop exits within the sequence (otherwise
it is still blocked waiting for the next connection). -/
def acceptLoopExits : List AcceptResult → Bool
  | [] => false
  | r :: rest =>
    match acceptLoopStep r with
    | .exitLoop => true
    | _ => acceptLoopExits rest

/-! Helper lemmas about the partition loop, the chain loop and the traces. -/

/-- Folding the leaf-selection step over a run of CA-only certificates
leaves the accumulator unchanged. -/
lemma chainLeaf_foldl_all_ca (ys : List Certificate) (acc : Option Certificate)
    (hys : ∀ c ∈ ys, c.isCA = true) :
    ys.foldl (fun acc c => if c.isCA then acc else some c) acc = acc := by
  induction ys generalizing acc with
  | nil => rfl
  | cons y ys ih =>
    have hy : y.isCA = true := hys y (List.mem_cons_self y ys)
    have hrest : ∀ c ∈ ys, c.isCA = true := fun c hc => hys c (List.mem_cons_of_mem y hc)
    simp only [List.foldl_cons, hy, if_true]
    exact ih acc hrest

/-- A chain consisting only of CA certificates selects no leaf. -/
lemma chainLeaf_all_ca (chain : List Certificate) (hca : ∀ c ∈ chain, c.isCA = true) :
    chainLeaf chain = none :=
  chainLeaf_foldl_all_ca chain none hca

/-- The leaf selected from `xs ++ a :: ys` is `a` whenever `a` is not a CA
certificate and everything after it is. -/
lemma chainLeaf_append (xs ys : List Certificate) (a : Certificate)
    (ha : a.isCA = false) (hys : ∀ c ∈ ys, c.isCA = true) :
    chainLeaf (xs ++ a :: ys) = some a := by
  unfold chainLeaf
  rw [List.foldl_append, List.foldl_cons, ha]
  simp only [Bool.false_eq_true, if_false]
  exact chainLeaf_foldl_all_ca ys (some a) hys

/-- Characterisation of a successful chain iteration: the selected leaf
passed path validation and its `NotAfter` is the produced expiration. -/
lemma processChain_ok (env : CertEnv) (id : Option Nat) (caBundle : CertPool)
    (chain : List Certificate) (t : Int)
    (h : (processChain env id caBundle chain).2 = .ok t) :
    ∃ leaf, chainLeaf chain = some leaf ∧ t = leaf.notAfter ∧
      env.leafVerify leaf caBundle (chainIntermediates chain) = true := by
  unfold processChain at h
  split at h
  · simp at h
  next leaf hsome =>
    split at h
    next hV =>
      refine ⟨leaf, hsome, ?_, hV⟩
      split at h
      · simp at h; exact h.symm
      · split at h
        · simp at h
        · simp at h
        · simp at h; exact h.symm
    next hV => simp at h

/-- A chain iteration never reports the missing-leaf error once a leaf has
been selected. -/
lemma processChain_ne_missing (env : CertEnv) (id : Option Nat) (caBundle : CertPool)
    (chain : List Certificate) (leaf : Certificate)
    (hl : chainLeaf chain = some leaf) :
    (processChain env id caBundle chain).2 ≠ .error .missingLeafCertificate := by
  intro hcontra
  unfold processChain at hcontra
  split at hcontra
  next heq => rw [hl] at heq; exact Option.noConfusion heq
  next leaf2 heq =>
    split at hcontra
    next hV =>
      split at hcontra
      · simp at hcontra
      · split at hcontra <;> simp at hcontra
    next hV => simp at hcontra

/-- Every external call recorded by a chain iteration either adds one of
the chain's CA certificates to the intermediates pool, or path-validates
the selected leaf, or identity-checks the selected leaf. -/
lemma processChain_trace_mem (env : CertEnv) (id : Option Nat) (caBundle : CertPool)
    (chain : List Certificate) (leaf : Certificate) (e : VEvent)
    (hl : chainLeaf chain = some leaf)
    (he : e ∈ (processChain env id caBundle chain).1) :
    (∃ c, e = VEvent.addIntermediate c ∧ c ∈ chainIntermediates chain) ∨
    e = VEvent.pathValidate leaf caBundle (chainIntermediates chain) ∨
    (∃ j, e = VEvent.checkIdentity j leaf) := by
  unfold processChain at he
  split at he
  next heq => rw [hl] at heq; exact Option.noConfusion heq
  next leaf2 heq =>
    have hleaf2 : leaf2 = leaf := by
      rw [hl] at heq
      exact (Option.some.inj heq).symm
    subst hleaf2
    split at he
    next hV =>
      split at he
      next =>
        simp only [List.mem_append, List.mem_map, List.mem_singleton] at he
        rcases he with ⟨c, hc, rfl⟩ | rfl
        · exact Or.inl ⟨c, rfl, hc⟩
        · exact Or.inr (Or.inl rfl)
      next i =>
        split at he
        · simp only [List.mem_append, List.mem_map, List.mem_cons,
            List.mem_singleton, List.not_mem_nil, or_false] at he
          rcases he with ⟨c, hc, rfl⟩ | rfl | rfl
          · exact Or.inl ⟨c, rfl, hc⟩
          · exact Or.inr (Or.inl rfl)
          · exact Or.inr (Or.inr ⟨i, rfl⟩)
        · simp only [List.mem_append, List.mem_map, List.mem_cons,
            List.mem_singleton, List.not_mem_nil, or_false] at he
          rcases he with ⟨c, hc, rfl⟩ | rfl | rfl
          · exact Or.inl ⟨c, rfl, hc⟩
          · exact Or.inr (Or.inl rfl)
          · exact Or.inr (Or.inr ⟨i, rfl⟩)
        · simp only [List.mem_append, List.mem_map, List.mem_cons,
            List.mem_singleton, List.not_mem_nil, or_false] at he
          rcases he with ⟨c, hc, rfl⟩ | rfl | rfl
          · exact Or.inl ⟨c, rfl, hc⟩
          · exact Or.inr (Or.inl rfl)
          · exact Or.inr (Or.inr ⟨i, rfl⟩)
    next hV =>
      simp only [List.mem_append, List.mem_map, List.mem_singleton] at he
      rcases he with ⟨c, hc, rfl⟩ | rfl
      · exact Or.inl ⟨c, rfl, hc⟩
      · exact Or.inr (Or.inl rfl)

/-- A successful chain loop over a non-empty list produced the last chain's
leaf expiration (each iteration overwrites `expirationTime`). -/
lemma verifyChainsLoop_ok (env : CertEnv) (id : Option Nat) (caBundle : CertPool) :
    ∀ (chains : List (List Certificate)) (exp v : Option Int),
    (verifyChainsLoop env id caBundle chains exp).2 = .ok v →
    (chains = [] ∧ v = exp) ∨
    (∃ lastChain leaf, chains.getLast? = some lastChain ∧
      chainLeaf lastChain = some leaf ∧ v = some leaf.notAfter) := by
  intro chains
  induction chains with
  | nil =>
    intro exp v h
    unfold verifyChainsLoop at h
    exact Or.inl ⟨rfl, (Except.ok.inj h).symm⟩
  | cons chain rest ih =>
    intro exp v h
    unfold verifyChainsLoop at h
    cases hp : processChain env id caBundle chain with
    | mk evs r =>
      rw [hp] at h
      cases r with
      | error e => simp at h
      | ok t =>
        simp only at h
        rcases ih (some t) v h with ⟨hrest, hv⟩ | ⟨lastChain, leaf, hlast, hleaf, hv⟩
        · subst hrest
          obtain ⟨leaf, hleaf, ht, _⟩ :=
            processChain_ok env id caBundle chain t (by rw [hp])
          exact Or.inr ⟨chain, leaf, by simp, hleaf, by rw [hv, ht]⟩
        · refine Or.inr ⟨lastChain, leaf, ?_, hleaf, hv⟩
          cases rest with
          | nil => simp at hlast
          | cons r rs => rw [List.getLast?_cons_cons]; exact hlast

/-- A successful single-chain verification returns the selected leaf's
`NotAfter`. -/
lemma verify_single_ok (env : CertEnv) (id : Option Nat) (caBundle : CertPool)
    (chain : List Certificate) (v : Option Int)
    (h : (verifyPeerCertificate env id caBundle [chain]).2 = .ok v) :
    ∃ leaf, chainLeaf chain = some leaf ∧ v = some leaf.notAfter := by
  unfold verifyPeerCertificate at h
  rcases verifyChainsLoop_ok env id caBundle [chain] none v h with ⟨hnil, _⟩ | h2
  · simp at hnil
  · obtain ⟨lastChain, leaf, hlast, hleaf, hv⟩ := h2
    simp only [List.getLast?_singleton, Option.some.injEq] at hlast
    subst hlast
    exact ⟨leaf, hleaf, hv⟩

/-- The trace of a single-chain verification is the trace of its one chain
iteration. -/
lemma verify_single_trace (env : CertEnv) (id : Option Nat) (caBundle : CertPool)
    (chain : List Certificate) (e : VEvent)
    (he : e ∈ (verifyPeerCertificate env id caBundle [chain]).1) :
    e ∈ (processChain env id caBundle chain).1 := by
  unfold verifyPeerCertificate verifyChainsLoop at he
  cases hp : processChain env id caBundle chain with
  | mk evs r =>
    rw [hp] at he
    cases r with
    | error err => simpa using he
    | ok t =>
      simp only [verifyChainsLoop, List.append_nil] at he
      exact he

/-- A failed single-chain verification reports exactly the error of its one
chain iteration. -/
lemma verify_single_error (env : CertEnv) (id : Option Nat) (caBundle : CertPool)
    (chain : List Certificate) (e : VerifyError)
    (h : (verifyPeerCertificate env id caBundle [chain]).2 = .error e) :
    (processChain env id caBundle chain).2 = .error e := by
  unfold verifyPeerCertificate verifyChainsLoop at h
  cases hp : processChain env id caBundle chain with
  | mk evs r =>
    rw [hp] at h
    cases r with
    | error err => simpa using h
    | ok t => simp [verifyChainsLoop] at h

/-- When verifying without an expected identity (the `id != nil` branch is
skipped), a chain iteration records only pool insertions and the one path
validation. -/
lemma processChain_none_trace (env : CertEnv) (caBundle : CertPool)
    (chain : List Certificate) (e : VEvent)
    (he : e ∈ (processChain env none caBundle chain).1) :
    (∃ c, e = VEvent.addIntermediate c) ∨
    (∃ l r p, e = VEvent.pathValidate l r p) := by
  unfold processChain at he
  split at he
  · simp only [List.mem_map] at he
    obtain ⟨c, _, rfl⟩ := he
    exact Or.inl ⟨c, rfl⟩
  next leaf heq =>
    split at he
    · simp only [List.mem_append, List.mem_map, List.mem_singleton] at he
      rcases he with ⟨c, _, rfl⟩ | rfl
      · exact Or.inl ⟨c, rfl⟩
      · exact Or.inr ⟨leaf, caBundle, chainIntermediates chain, rfl⟩
    · simp only [List.mem_append, List.mem_map, List.mem_singleton] at he
      rcases he with ⟨c, _, rfl⟩ | rfl
      · exact Or.inl ⟨c, rfl⟩
      · exact Or.inr ⟨leaf, caBundle, chainIntermediates chain, rfl⟩

/-- The guarded expiration update never erases an already-set expiration. -/
lemma updateExpiration_ne_none (p : Option Int) (e : Int) :
    updateExpiration p (some e) ≠ none := by
  cases p with
  | none => simp [updateExpiration]
  | some pt =>
    simp only [updateExpiration]
    split_ifs <;> simp

/-- The guarded expiration update computes the minimum of the two
expirations when both are present. -/
lemma updateExpiration_min (p e : Int) :
    updateExpiration (some p) (some e) = some (min e p) := by
  simp only [updateExpiration]
  by_cases h : p < e
  · rw [if_pos h, min_eq_right (le_of_lt h)]
  · rw [if_neg h, min_eq_left (not_lt.mp h)]

end MtlsAuth

namespace MtlsAuth

/-- Witness fixtures: a path-validation oracle that accepts everything and
an identity predicate that accepts, respectively rejects, every identity. -/
def envAllValid : CertEnv where
  leafVerify := fun _ _ _ => true
  validateIdentity := fun _ _ => .ok true

/-- Environment whose identity predicate rejects every identity. -/
def envRejectId : CertEnv where
  leafVerify := fun _ _ _ => true
  validateIdentity := fun _ _ => .ok false

/-- Sample local leaf certificate (expires at time 100). -/
def localLeaf : Certificate := ⟨false, 100, 1⟩

/-- Sample peer leaf certificate (expires at time 90). -/
def peerLeaf : Certificate := ⟨false, 90, 2⟩

/-- Sample CA certificate. -/
def caCert : Certificate := ⟨true, 500, 3⟩

/-- Sample leaf with the earlier expiration (time 1). -/
def cEarly : Certificate := ⟨false, 1, 4⟩

/-- Sample leaf with the later expiration (time 2). -/
def cLate : Certificate := ⟨false, 2, 5⟩

/-- Authentication environment in which every external step succeeds. -/
def envHappy : AuthEnv where
  certEnv := envAllValid
  getCertificateForIdentity := fun _ => .ok localLeaf
  getTrustBundle := .ok [caCert]
  dialOk := fun _ => true
  peerChain := .ok [caCert, peerLeaf]

/-- Sample authentication request. -/
def reqW : authRequest := ⟨5, 10, "10.0.0.2"⟩

/-- C4 -- Calling `verifyPeerCertificate` with an empty list of certificate
chains fails with the `EmptyChainList` error ("no certificate chains
found"), for every environment, expected identity and trust bundle, and the
empty external-call trace shows that no verification work is performed. -/
theorem C4_empty_chain_rejection (env : CertEnv) (id : Option Nat) (caBundle : CertPool) :
    verifyPeerCertificate env id caBundle [] = ([], .error .emptyChainList) := by
  rfl

/-- C1 -- When `authenticate` succeeds with a local leaf certificate
expiring at `clientCert.notAfter` and a peer chain whose verified leaf
expires at `leaf.notAfter`, the returned `authResponse.expirationTime` is
the minimum of the two: it is seeded with the local leaf's `NotAfter` and
replaced by the peer's expiration only when the peer's is strictly
earlier. -/
theorem C1_min_expiration (cfg : Nat) (env : AuthEnv) (ar : authRequest)
    (clientCert : Certificate) (chain : List Certificate) (leaf : Certificate)
    (resp : authResponse)
    (hc : env.getCertificateForIdentity ar.localIdentity = .ok clientCert)
    (hp : env.peerChain = .ok chain)
    (hl : chainLeaf chain = some leaf)
    (hs : (authenticate cfg env (some ar)).2 = .ok resp) :
    resp.expirationTime = min clientCert.notAfter leaf.notAfter := by
  cases ht : env.getTrustBundle with
  | error msg =>
    simp [authenticate, hc, ht] at hs
  | ok caBundle =>
    cases hd : env.dialOk ar.remoteNodeIP with
    | false => simp [authenticate, hc, ht, hd] at hs
    | true =>
      cases hv : (verifyPeerCertificate env.certEnv (some ar.remoteIdentity) caBundle
          [chain]).2 with
      | error e => simp [authenticate, hc, ht, hd, hp, hv] at hs
      | ok peerExp =>
        obtain ⟨leaf2, hl2, hpe⟩ :=
          verify_single_ok env.certEnv (some ar.remoteIdentity) caBundle chain peerExp hv
        rw [hl] at hl2
        injection hl2 with hl2
        subst hl2
        subst hpe
        simp only [authenticate, hc, ht, hd, hp, hv, if_true,
          updateExpiration_min] at hs
        injection hs with hs
        rw [← hs]

/-- Closed witness for C1: with the sample environment (local leaf expiring
at 100, peer leaf expiring at 90), `authenticate` succeeds and returns 90,
the minimum of the two expirations. -/
theorem C1_min_expiration_witness :
    (⟨90⟩ : authResponse).expirationTime = min localLeaf.notAfter peerLeaf.notAfter :=
  C1_min_expiration 4250 envHappy reqW localLeaf [caCert, peerLeaf] peerLeaf ⟨90⟩
    rfl rfl rfl rfl

/-- C2 (counterexample) -- With two chains whose leaves expire at 1 and 2
(in that order) and every chain passing validation, `verifyPeerCertificate`
returns the expiration 2 of the *last* chain, which is strictly later than
the verified leaf expiration 1 of the first chain: the returned value is
not the minimum over all verified chains. -/
theorem C2_counterexample :
    (verifyPeerCertificate envAllValid none [caCert] [[cEarly], [cLate]]).2 =
      Except.ok (some (2 : Int)) ∧
    chainLeaf [cEarly] = some cEarly ∧
    cEarly.notAfter = 1 ∧
    ¬((2 : Int) ≤ 1) :=
  ⟨rfl, rfl, rfl, by norm_num⟩

/-- C2 (amended) -- For every list of certificate chains on which
`verifyPeerCertificate` succeeds, the returned expiration time is the leaf
expiration of the *last* chain in the list — each verified chain overwrites
`expirationTime` — so it equals the minimum of the leaf expirations only in
the single-chain case (the only case arising in this file, since
`authenticate` always passes exactly one chain). -/
theorem C2_last_chain_expiration (env : CertEnv) (id : Option Nat) (caBundle : CertPool)
    (chains : List (List Certificate)) (v : Option Int)
    (hs : (verifyPeerCertificate env id caBundle chains).2 = .ok v) :
    ∃ lastChain leaf, chains.getLast? = some lastChain ∧
      chainLeaf lastChain = some leaf ∧ v = some leaf.notAfter := by
  cases chains with
  | nil => simp [verifyPeerCertificate] at hs
  | cons c rest =>
    have hs2 : (verifyChainsLoop env id caBundle (c :: rest) none).2 = .ok v := hs
    rcases verifyChainsLoop_ok env id caBundle (c :: rest) none v hs2 with ⟨h1, _⟩ | h2
    · exact absurd h1 (by simp)
    · exact h2

/-- Closed witness for the amended C2: a successful single-chain
verification returns that chain's leaf expiration. -/
theorem C2_last_chain_expiration_witness :
    ∃ lastChain leaf, ([[cEarly]] : List (List Certificate)).getLast? = some lastChain ∧
      chainLeaf lastChain = some leaf ∧ (some (1 : Int)) = some leaf.notAfter :=
  C2_last_chain_expiration envAllValid none [caCert] [[cEarly]] (some 1) rfl

/-- C3 -- For a chain whose selected leaf passes path validation: when an
expected identity `i` is supplied and the provider's `ValidateIdentity`
returns false, `verifyPeerCertificate` fails with the `IdentityMismatch`
error ("unable to validate SAN") and hence never succeeds; when
`ValidateIdentity` returns an error, that error is wrapped and propagated;
and when no expected identity is supplied, no identity check is ever
performed (no `checkIdentity` call appears in the trace). -/
theorem C3_identity_mismatch (env : CertEnv) (i : Nat) (caBundle : CertPool)
    (chain : List Certificate) (leaf : Certificate)
    (hl : chainLeaf chain = some leaf)
    (hv : env.leafVerify leaf caBundle (chainIntermediates chain) = true) :
    (env.validateIdentity i leaf = .ok false →
      (verifyPeerCertificate env (some i) caBundle [chain]).2 =
        .error .identityMismatch) ∧
    (∀ msg, env.validateIdentity i leaf = .error msg →
      (verifyPeerCertificate env (some i) caBundle [chain]).2 =
        .error (.identityValidationError msg)) ∧
    (∀ j c, VEvent.checkIdentity j c ∉
      (verifyPeerCertificate env none caBundle [chain]).1) := by
  refine ⟨?_, ?_, ?_⟩
  · intro hid
    simp [verifyPeerCertificate, verifyChainsLoop, processChain, hl, hv, hid]
  · intro msg hmsg
    simp [verifyPeerCertificate, verifyChainsLoop, processChain, hl, hv, hmsg]
  · intro j c hmem
    have h1 := verify_single_trace env none caBundle chain _ hmem
    rcases processChain_none_trace env caBundle chain _ h1 with ⟨c2, hc2⟩ | ⟨l, r, p, hc2⟩
    · exact VEvent.noConfusion hc2
    · exact VEvent.noConfusion hc2

/-- Closed witness for C3: with an identity predicate that rejects
everything, verification of a trusted chain with an expected identity fails
with `IdentityMismatch`, and without an expected identity no identity check
is recorded. -/
theorem C3_identity_mismatch_witness :
    (envRejectId.validateIdentity 7 peerLeaf = .ok false →
      (verifyPeerCertificate envRejectId (some 7) [caCert] [[caCert, peerLeaf]]).2 =
        .error .identityMismatch) ∧
    (∀ msg, envRejectId.validateIdentity 7 peerLeaf = .error msg →
      (verifyPeerCertificate envRejectId (some 7) [caCert] [[caCert, peerLeaf]]).2 =
        .error (.identityValidationError msg)) ∧
    (∀ j c, VEvent.checkIdentity j c ∉
      (verifyPeerCertificate envRejectId none [caCert] [[caCert, peerLeaf]]).1) :=
  C3_identity_mismatch envRejectId 7 [caCert] [caCert, peerLeaf] peerLeaf rfl rfl

/-- C5 -- Each chain is partitioned by the CA flag: every `IsCA`
certificate goes to the intermediates pool (for an all-CA chain the pool is
the whole chain), and the leaf is the remaining non-CA certificate; when
the chain contains no certificate with `IsCA` false, no leaf is selected
and verification fails with the `MissingLeafCertificate` error ("no leaf
certificate found") before any path validation is attempted (no
`pathValidate` call appears in the trace). -/
theorem C5_missing_leaf (env : CertEnv) (id : Option Nat) (caBundle : CertPool)
    (chain : List Certificate)
    (hca : ∀ c ∈ chain, c.isCA = true) :
    chainIntermediates chain = chain ∧
    chainLeaf chain = none ∧
    (verifyPeerCertificate env id caBundle [chain]).2 =
      .error .missingLeafCertificate ∧
    (∀ l r p, VEvent.pathValidate l r p ∉
      (verifyPeerCertificate env id caBundle [chain]).1) := by
  have hleaf := chainLeaf_all_ca chain hca
  refine ⟨?_, hleaf, ?_, ?_⟩
  · unfold chainIntermediates
    exact List.filter_eq_self.mpr (fun c hc => by simpa using hca c hc)
  · simp [verifyPeerCertificate, verifyChainsLoop, processChain, hleaf]
  · intro l r p hmem
    have h1 := verify_single_trace env id caBundle chain _ hmem
    simp only [processChain, hleaf, List.mem_map] at h1
    obtain ⟨c, _, hc⟩ := h1
    exact VEvent.noConfusion hc

/-- Closed witness for C5: a chain holding a single CA certificate is
rejected with `MissingLeafCertificate` and nothing is path-validated. -/
theorem C5_missing_leaf_witness :
    chainIntermediates [caCert] = [caCert] ∧
    chainLeaf [caCert] = none ∧
    (verifyPeerCertificate envAllValid none [caCert] [[caCert]]).2 =
      .error .missingLeafCertificate ∧
    (∀ l r p, VEvent.pathValidate l r p ∉
      (verifyPeerCertificate envAllValid none [caCert] [[caCert]]).1) :=
  C5_missing_leaf envAllValid none [caCert] [caCert] (by decide)

/-- C6 -- Calling `authenticate` with a nil request fails with the
`InvalidRequest` error ("authRequest is nil") and the empty effect trace:
no certificate-provider call (`GetCertificateForIdentity`,
`GetTrustBundle`), no TCP dial and no handshake is performed on that
path. -/
theorem C6_nil_request_rejection (cfg : Nat) (env : AuthEnv) :
    authenticate cfg env none = ([], .error .invalidRequest) := by
  rfl

/-- C7 -- With `MutualAuthListenerPort` 0, `newMTLSAuthHandler` disables
the subsystem: regardless of whether a certificate provider is present, it
returns the empty result (no `AuthHandler` installed), appends no lifecycle
hook — hence the listener that would open the socket is never started —
and never reaches the certificate-provider nil check. -/
theorem C7_port_zero_disables (providerPresent : Bool) :
    newMTLSAuthHandler 0 providerPresent =
      { handlerInstalled := false, hookAppended := false, fatalExit := false,
        providerChecked := false } := by
  rfl

/-- C8 -- The accept loop of `listenForConnections` exits on an accept
error if and only if the error is `net.ErrClosed` (the deliberate close
during stop); a successful accept spawns a handler and continues; and over
any finite sequence of accept outcomes the loop terminates exactly when the
sequence contains a `net.ErrClosed` error — every other error is logged and
the loop keeps accepting. -/
theorem C8_accept_loop_exit_iff_closed :
    (∀ isErrClosed, acceptLoopStep (AcceptResult.acceptError isErrClosed) =
        LoopAction.exitLoop ↔ isErrClosed = true) ∧
    acceptLoopStep AcceptResult.acceptedConn = LoopAction.spawnHandlerAndContinue ∧
    (∀ events, acceptLoopExits events = true ↔
        AcceptResult.acceptError true ∈ events) := by
  refine ⟨?_, rfl, ?_⟩
  · intro isErrClosed
    cases isErrClosed <;> simp [acceptLoopStep]
  · intro events
    induction events with
    | nil => simp [acceptLoopExits]
    | cons r rest ih =>
      cases r with
      | acceptedConn => simp [acceptLoopExits, acceptLoopStep, ih]
      | acceptError isErrClosed =>
        cases isErrClosed <;> simp [acceptLoopExits, acceptLoopStep, ih]

/-- C9 -- The defensive `NoExpirationDetermined` branch of `authenticate`
is unreachable: `expirationTime` is seeded with the local leaf's `NotAfter`
and only ever replaced by a non-nil peer expiration, so `authenticate`
never returns the "failed to get expiration time of peer certificate"
error, for any configuration, environment and request. -/
theorem C9_no_expiration_unreachable (cfg : Nat) (env : AuthEnv)
    (ar : Option authRequest) :
    (authenticate cfg env ar).2 ≠ .error .noExpirationDetermined := by
  intro hcontra
  cases ar with
  | none => simp [authenticate] at hcontra
  | some a =>
    simp only [authenticate] at hcontra
    split at hcontra
    · simp at hcontra
    · split at hcontra
      · simp at hcontra
      · split at hcontra
        · split at hcontra
          · simp at hcontra
          · split at hcontra
            · simp at hcontra
            · split at hcontra
              next heq => exact updateExpiration_ne_none _ _ heq
              next t heq => simp at hcontra
        · simp at hcontra

/-- C10 -- A chain with several non-CA certificates raises no error: the
last non-CA certificate (`a` in `xs ++ a :: ys` with everything after it
CA-flagged) is silently selected as the sole leaf; any other certificate
`b` — in particular every earlier non-CA certificate — is never added to
the intermediates pool (when non-CA), never path-validated and never
identity-checked, and a successful verification returns `a`'s expiration,
never `b`'s. -/
theorem C10_last_non_ca_leaf (env : CertEnv) (id : Option Nat) (caBundle : CertPool)
    (xs ys : List Certificate) (a : Certificate)
    (ha : a.isCA = false) (hys : ∀ c ∈ ys, c.isCA = true) :
    chainLeaf (xs ++ a :: ys) = some a ∧
    (∀ b, b.isCA = false → b ∉ chainIntermediates (xs ++ a :: ys)) ∧
    (∀ b, b ≠ a →
      (∀ r p, VEvent.pathValidate b r p ∉
        (verifyPeerCertificate env id caBundle [xs ++ a :: ys]).1) ∧
      (∀ j, VEvent.checkIdentity j b ∉
        (verifyPeerCertificate env id caBundle [xs ++ a :: ys]).1)) ∧
    (∀ v, (verifyPeerCertificate env id caBundle [xs ++ a :: ys]).2 = .ok v →
      v = some a.notAfter) ∧
    (verifyPeerCertificate env id caBundle [xs ++ a :: ys]).2 ≠
      .error .missingLeafCertificate := by
  have hleaf := chainLeaf_append xs ys a ha hys
  refine ⟨hleaf, ?_, ?_, ?_, ?_⟩
  · intro b hb hmem
    unfold chainIntermediates at hmem
    rw [List.mem_filter] at hmem
    rw [hb] at hmem
    exact Bool.noConfusion hmem.2
  · intro b hba
    constructor
    · intro r p hmem
      have h1 := verify_single_trace env id caBundle _ _ hmem
      rcases processChain_trace_mem env id caBundle _ a _ hleaf h1 with
        ⟨c, hc, _⟩ | hc | ⟨j, hc⟩
      · exact VEvent.noConfusion hc
      · injection hc with h1 h2 h3
        exact hba h1
      · exact VEvent.noConfusion hc
    · intro j hmem
      have h1 := verify_single_trace env id caBundle _ _ hmem
      rcases processChain_trace_mem env id caBundle _ a _ hleaf h1 with
        ⟨c, hc, _⟩ | hc | ⟨j2, hc⟩
      · exact VEvent.noConfusion hc
      · exact VEvent.noConfusion hc
      · injection hc with h1 h2
        exact hba h2
  · intro v hv
    obtain ⟨leaf2, hl2, hv2⟩ := verify_single_ok env id caBundle _ v hv
    rw [hleaf] at hl2
    injection hl2 with hl2
    rw [hv2, ← hl2]
  · intro hcontra
    exact processChain_ne_missing env id caBundle _ a hleaf
      (verify_single_error env id caBundle _ _ hcontra)

/-- Closed witness for C10: in the chain `[cEarly, peerLeaf, caCert]` the
earlier non-CA certificate `cEarly` is ignored — `peerLeaf` is the selected
leaf, `cEarly` is not in the intermediates pool, is never path-validated
nor identity-checked, and the expiration is `peerLeaf`'s. -/
theorem C10_last_non_ca_leaf_witness :
    chainLeaf ([cEarly] ++ peerLeaf :: [caCert]) = some peerLeaf ∧
    (∀ b, b.isCA = false → b ∉ chainIntermediates ([cEarly] ++ peerLeaf :: [caCert])) ∧
    (∀ b, b ≠ peerLeaf →
      (∀ r p, VEvent.pathValidate b r p ∉
        (verifyPeerCertificate envAllValid (some 7) [caCert]
          [[cEarly] ++ peerLeaf :: [caCert]]).1) ∧
      (∀ j, VEvent.checkIdentity j b ∉
        (verifyPeerCertificate envAllValid (some 7) [caCert]
          [[cEarly] ++ peerLeaf :: [caCert]]).1)) ∧
    (∀ v, (verifyPeerCertificate envAllValid (some 7) [caCert]
        [[cEarly] ++ peerLeaf :: [caCert]]).2 = .ok v →
      v = some peerLeaf.notAfter) ∧
    (verifyPeerCertificate envAllValid (some 7) [caCert]
        [[cEarly] ++ peerLeaf :: [caCert]]).2 ≠
      .error .missingLeafCertificate :=
  C10_last_non_ca_leaf envAllValid (some 7) [caCert] [cEarly] [caCert] peerLeaf
    rfl (by decide)

end MtlsAuth
